import Mathlib

/-!
Verification development for the document-processing pipeline
(`services/document_processing/{divide, conversion, processor}.py`).

Paths are modelled as `List Char`; file contents as `List Nat` (bytes).
The path helpers mirror `os.path.splitext`, `os.path.basename`,
`os.path.dirname` and `os.path.join` (POSIX behaviour) closely enough to
reason about extension dispatch and constructed output names.
-/

namespace DocPipeline

/-- Lower-case a path, mirroring Python's `str.lower()` on ASCII names. -/
def toLower (s : List Char) : List Char := s.map Char.toLower

/-- Model of `os.path.splitext`: splits `p` into `(root, ext)`, where `ext`
starts at the last dot of the final path component, provided some non-dot
character of that component precedes the dot (leading dots do not begin an
extension). -/
def splitext (p : List Char) : List Char × List Char :=
  let r := p.reverse
  let suf := r.takeWhile (fun c => c ≠ '.' && c ≠ '/')
  let rest := r.drop suf.length
  match rest with
  | [] => (p, [])
  | c :: pre =>
    if c = '.' ∧ (pre.takeWhile (· ≠ '/')).any (· ≠ '.') then
      (pre.reverse, '.' :: suf.reverse)
    else (p, [])

/-- Model of `os.path.basename`: the part after the last slash. -/
def basename (p : List Char) : List Char :=
  (p.reverse.takeWhile (· ≠ '/')).reverse

/-- Model of `os.path.dirname`: everything up to the last slash, with
trailing slashes stripped unless the head is all slashes. -/
def dirname (p : List Char) : List Char :=
  let r := p.reverse
  if r.any (· = '/') then
    let headRev := r.dropWhile (· ≠ '/')
    if headRev.all (· = '/') then headRev.reverse
    else (headRev.dropWhile (· = '/')).reverse
  else []

/-- Model of `os.path.join` for one extra component (POSIX). -/
def joinPath (a b : List Char) : List Char :=
  if b.head? = some '/' then b
  else if a = [] ∨ a.getLast? = some '/' then a ++ b
  else a ++ '/' :: b

/-- Application configuration limits (`Config.MAX_FILE_SIZE_BYTES`,
`Config.MAX_PDF_PAGES`). -/
structure Config where
  maxFileSizeBytes : Nat
  maxPdfPages : Nat
deriving Repr, DecidableEq

/-- Abstract view of an input file for the divider: its path, raw bytes,
and the outcome of attempting to read it with `PdfReader` (`some n` =
readable with `n` pages; `none` = the read raised, as in the `except`
branch of `_check_and_divide_pdf`). -/
structure FileInfo where
  path : List Char
  content : List Nat
  pdfPages : Option Nat
deriving Repr, DecidableEq

/-- Byte size of a file, as `os.path.getsize` reports it. -/
def fileSize (f : FileInfo) : Nat := f.content.length

/-- One entry of the list returned by `check_and_divide_file`: either the
original path, a PDF chunk covering pages `[startPage, endPage)` written
as `<base>_chunk_<num>.pdf`, or a byte-window chunk written as
`<base>_chunk_<num><ext>`. -/
inductive ChunkRef where
  | original (p : List Char)
  | pdfChunk (num startPage endPage : Nat)
  | byteChunk (num : Nat) (data : List Nat)
deriving Repr, DecidableEq

/-- Page-range loop of `_divide_pdf_by_pages` (lines 87-109): starting at
`startPage` with chunk number `num`, emit `(num, start, end)` with
`end = min (start + ppc) total` until `start ≥ total`.  The source loop
does not guard `ppc = 0` (it would not terminate there); the model
returns `[]` in that unreachable configuration. -/
def divideRanges (ppc num startPage total : Nat) : List (Nat × Nat × Nat) :=
  if h : startPage < total ∧ 0 < ppc then
    (num, startPage, min (startPage + ppc) total) ::
      divideRanges ppc (num + 1) (min (startPage + ppc) total) total
  else []
termination_by total - startPage
decreasing_by
  rcases h with ⟨h1, h2⟩
  rcases Nat.le_total (startPage + ppc) total with hle | hle
  · rw [Nat.min_eq_left hle]; omega
  · rw [Nat.min_eq_right hle]; omega

/-- Byte-window loop of `_divide_large_file` (lines 126-143): repeatedly
`read(maxBytes)` and emit the window until the read is empty.  With
`maxBytes = 0` Python's `read(0)` returns `b''` at once, so no chunks are
produced. -/
def divide_large_file (maxBytes : Nat) (data : List Nat) : List (List Nat) :=
  if h : 0 < maxBytes ∧ data ≠ [] then
    data.take maxBytes :: divide_large_file maxBytes (data.drop maxBytes)
  else []
termination_by data.length
decreasing_by
  rcases h with ⟨h1, h2⟩
  have : 0 < data.length := List.length_pos.mpr h2
  simp [List.length_drop]; omega

/-- Numbered byte-window chunks as `check_and_divide_file` returns them
(chunk numbering starts at 1). -/
def byteChunkRefs (maxBytes : Nat) (data : List Nat) : List ChunkRef :=
  (divide_large_file maxBytes data).enum.map (fun p => .byteChunk (p.1 + 1) p.2)

/-- Model of `DocumentDivider._check_and_divide_pdf` (lines 38-74): read
the page count (the `except` branch is the `none` case), return the file
itself when both constraints hold, otherwise choose `pages_per_chunk` and
divide by pages. -/
def check_and_divide_pdf (cfg : Config) (f : FileInfo) : List ChunkRef :=
  match f.pdfPages with
  | some totalPages =>
    if fileSize f ≤ cfg.maxFileSizeBytes ∧ totalPages ≤ cfg.maxPdfPages then
      [.original f.path]
    else
      let ppc :=
        if totalPages > cfg.maxPdfPages then cfg.maxPdfPages
        else max 1 (cfg.maxPdfPages * cfg.maxFileSizeBytes / fileSize f)
      (divideRanges ppc 1 0 totalPages).map (fun r => .pdfChunk r.1 r.2.1 r.2.2)
  | none =>
    if fileSize f ≤ cfg.maxFileSizeBytes then [.original f.path]
    else byteChunkRefs cfg.maxFileSizeBytes f.content

/-- Model of `DocumentDivider.check_and_divide_file` (lines 12-36):
dispatch on the lower-cased extension; PDFs get the page-aware check,
other files only the size check. -/
def check_and_divide_file (cfg : Config) (f : FileInfo) : List ChunkRef :=
  if toLower (splitext f.path).2 = ".pdf".toList then
    check_and_divide_pdf cfg f
  else if fileSize f ≤ cfg.maxFileSizeBytes then [.original f.path]
  else byteChunkRefs cfg.maxFileSizeBytes f.content

/-- Result tag of `_divide_pdf_by_pages` as a whole: either the list of
chunk file numbers it returns, or the `[file_path]` fallback taken in its
`except` branch (lines 111-114). -/
inductive DivideOutcome where
  | chunks (nums : List Nat)
  | fallbackOriginal
deriving Repr, DecidableEq

/-- Effectful model of the `_divide_pdf_by_pages` loop with failure
injection, tracking which chunk files exist on disk.  `failAt = some k`
means an exception is raised while `pdf_writer.write` runs for chunk `k`
(after `open` has created the chunk file, so a partial file for `k`
remains).  `written` accumulates chunk numbers present on disk; chunks
are identified by their number, standing for `<base>_chunk_<num>.pdf`.
Returns the function result together with the final on-disk chunk set:
the `except` branch returns `[file_path]` (here `fallbackOriginal`) and
removes nothing. -/
def dividePdfWrites (failAt : Option Nat) (ppc : Nat) :
    Nat → Nat → Nat → List Nat → DivideOutcome × List Nat
  | num, startPage, total, written =>
    if h : startPage < total ∧ 0 < ppc then
      if failAt = some num then (.fallbackOriginal, written ++ [num])
      else
        dividePdfWrites failAt ppc (num + 1) (min (startPage + ppc) total) total
          (written ++ [num])
    else (.chunks written, written)
termination_by _ startPage total => total - startPage
decreasing_by
  rcases h with ⟨h1, h2⟩
  rcases Nat.le_total (startPage + ppc) total with hle | hle
  · rw [Nat.min_eq_left hle]; omega
  · rw [Nat.min_eq_right hle]; omega

/-- Model of `DocumentConverter.convert_to_pdf` (conversion.py lines
15-75).  `convertOk p` abstracts whether the conversion attempt leaves
`output_pdf_path` existing (line 65); on a raised exception or a missing
output the original path is returned. -/
def convert_to_pdf (convertOk : List Char → Bool) (p : List Char) : List Char :=
  if toLower (splitext p).2 = ".pdf".toList then p
  else
    let stem := (splitext (basename p)).1
    let out := joinPath (dirname p) (stem ++ "_converted.pdf".toList)
    if convertOk p then out else p

/-- Per-chunk extraction outcome as `TextExtractor.process_document`
returns it: `success`, the extracted `text`, and the metadata fields the
processor reads back. -/
structure ChunkOutcome where
  success : Bool
  text : String
  extractionMethod : Option String
  byteSize : Nat
deriving Repr, DecidableEq

/-- Placeholder recorded when a chunk yields no text
(processor.py line 100). -/
def placeholderText : String := "No text could be extracted from this chunk."

/-- Separator inserted between chunk texts when merging
(processor.py line 120). -/
def chunkSeparator : String := "\n\n--- CHUNK SEPARATOR ---\n\n"

/-- Extraction loop of `process_single_file` (lines 84-108): one entry is
appended to `all_extracted_text` per chunk — the chunk's text when
`chunk_result['success'] and chunk_result['text']` is truthy, the
placeholder otherwise. -/
def recordedTexts (outcomes : List ChunkOutcome) : List String :=
  outcomes.foldl
    (fun acc o =>
      acc ++ [if o.success = true ∧ o.text ≠ "" then o.text else placeholderText])
    []

/-- Merge step of `process_single_file` (lines 119-122). -/
def mergeTexts (outcomes : List ChunkOutcome) : String :=
  let ts := recordedTexts outcomes
  if 1 < outcomes.length then String.intercalate chunkSeparator ts
  else
    match ts with
    | [] => "No text could be extracted."
    | t :: _ => t

/-- Aggregate metadata block written at step 4 (lines 126-130). -/
structure FileMetadata where
  chunks_processed : Nat
  extraction_methods : List (Option String)
  total_file_size : Nat
deriving Repr, DecidableEq

/-- Per-file result dictionary of `process_single_file`; `metadata = none`
models the empty `'metadata': {}` of the error result. -/
structure FileResult where
  success : Bool
  filePath : List Char
  extracted_text : String
  text_length : Nat
  metadata : Option FileMetadata
  error : Option String
deriving Repr, DecidableEq

/-- Error artifact written by `_save_error_info` (lines 282-298): source
path, error text, timestamp. -/
structure ErrorArtifact where
  sourcePath : List Char
  errorText : String
  timestamp : Nat
deriving Repr, DecidableEq

/-- Abstract per-file environment for one `process_single_file` run:
whether the file exists, whether an exception escapes the pipeline body
(`some e` = the `except` branch at line 158 runs with message `e`), and
the per-chunk extraction outcomes observed in step 3. -/
structure FileEnv where
  fileExists : Bool
  pipelineError : Option String
  outcomes : List ChunkOutcome
deriving Repr, DecidableEq

/-- Structured error result of `_create_error_result` (lines 236-249). -/
def create_error_result (filePath : List Char) (msg : String) : FileResult :=
  { success := false, filePath := filePath, extracted_text := "",
    text_length := 0, metadata := none, error := some msg }

/-- Model of `DocumentProcessor.process_single_file` (lines 20-173).
Returns the result dictionary together with the error artifact written by
`_save_error_info`, if any.  The missing-file early return (lines 31-32)
precedes the `try` block, so it writes no artifact; an exception escaping
the pipeline body produces a failed result and, when `saveOutput` is set,
an error artifact. -/
def process_single_file (now : Nat) (env : FileEnv) (filePath : List Char)
    (saveOutput : Bool) : FileResult × Option ErrorArtifact :=
  if env.fileExists = false then
    (create_error_result filePath "File does not exist", none)
  else
    match env.pipelineError with
    | some e =>
      ({ success := false, filePath := filePath, extracted_text := "",
         text_length := 0, metadata := none, error := some e },
       if saveOutput then some ⟨filePath, e, now⟩ else none)
    | none =>
      let text := mergeTexts env.outcomes
      ({ success := true, filePath := filePath, extracted_text := text,
         text_length := text.length,
         metadata := some
           { chunks_processed := env.outcomes.length,
             extraction_methods := env.outcomes.map (·.extractionMethod),
             total_file_size := (env.outcomes.map (·.byteSize)).sum },
         error := none }, none)

/-- Batch result dictionary of `process_multiple_files`. -/
structure BatchResult where
  success : Bool
  total_files : Nat
  successful_files : Nat
  failed_files : Nat
  combined_text : String
  individual_results : List FileResult
deriving Repr, DecidableEq

/-- File banner inserted into the combined text (line 216), with `i` the
1-based file index. -/
def fileBanner (i : Nat) (filename : List Char) : String :=
  "\n\n=== FILE " ++ Nat.repr i ++ ": " ++ String.mk filename ++ " ===\n\n"

/-- Loop body of `process_multiple_files` (lines 207-221): append the
per-file result, bump the success/failure counter, and extend the
combined text for successful files with non-empty text. -/
def batchStep (now : Nat) (env : List Char → FileEnv) (saveOutput : Bool)
    (acc : BatchResult) (ip : Nat × List Char) : BatchResult :=
  let fr := (process_single_file now (env ip.2) ip.2 saveOutput).1
  { acc with
    individual_results := acc.individual_results ++ [fr]
    successful_files :=
      if fr.success then acc.successful_files + 1 else acc.successful_files
    failed_files :=
      if fr.success then acc.failed_files else acc.failed_files + 1
    combined_text :=
      if fr.success ∧ fr.extracted_text ≠ "" then
        acc.combined_text ++ fileBanner (ip.1 + 1) (basename ip.2)
          ++ fr.extracted_text
      else acc.combined_text }

/-- Model of `DocumentProcessor.process_multiple_files` (lines 175-234):
fold the per-file step over the input paths in order, then apply the
final success adjustment (lines 228-229): if any file failed, batch
success becomes `successful_files > 0`. -/
def process_multiple_files (now : Nat) (env : List Char → FileEnv)
    (paths : List (List Char)) (saveOutput : Bool) : BatchResult :=
  let init : BatchResult :=
    { success := true, total_files := paths.length, successful_files := 0,
      failed_files := 0, combined_text := "", individual_results := [] }
  let r := paths.enum.foldl (batchStep now env saveOutput) init
  if 0 < r.failed_files then
    { r with success := decide (0 < r.successful_files) }
  else r

/-- Collision-avoidance loop of `_save_extracted_text` (lines 259-264):
while the candidate name exists, retry with
`splitext(original_output_file)[0] + "_" + str(counter) + ".txt"`.
`fs` is the set of existing output paths; `fuel` bounds the recursion
(the source loop runs until a free name is found). -/
def chooseOutputName (fs : List (List Char)) (orig : List Char) :
    Nat → List Char → Nat → Option (List Char)
  | 0, _, _ => none
  | fuel + 1, current, counter =>
    if current ∈ fs then
      chooseOutputName fs orig fuel
        ((splitext orig).1 ++ "_".toList ++ (Nat.repr counter).toList
          ++ ".txt".toList)
        (counter + 1)
    else some current

/-- Output-name selection of `_save_extracted_text` (lines 251-264): the
first candidate is `<OUTPUT_DIR>/<stem of basename>_extracted.txt`, then
numeric suffixes on collision. -/
def save_extracted_text_name (fs : List (List Char)) (outputDir : List Char)
    (originalFilePath : List Char) (fuel : Nat) : Option (List Char) :=
  let first :=
    joinPath outputDir
      ((splitext (basename originalFilePath)).1 ++ "_extracted.txt".toList)
  chooseOutputName fs first fuel first 1

/-- The page-range loop yields no chunks exactly when the loop guard
fails at entry. -/
theorem divideRanges_eq_nil_iff (ppc num s t : Nat) :
    divideRanges ppc num s t = [] ↔ t ≤ s ∨ ppc = 0 := by
  rw [divideRanges]
  split
  · rename_i h
    constructor
    · intro hc; cases hc
    · intro hc; omega
  · rename_i h
    constructor
    · intro _; omega
    · intro _; rfl

/-- Concatenating the page ranges produced by the loop gives exactly the
pages `[s, t)`, in order. -/
theorem divideRanges_flatten (ppc num s t : Nat) (hppc : 0 < ppc) :
    ((divideRanges ppc num s t).map
        (fun r => List.range' r.2.1 (r.2.2 - r.2.1))).flatten
      = List.range' s (t - s) := by
  induction num, s, t using divideRanges.induct ppc with
  | case1 num s t h ih =>
    rw [divideRanges, dif_pos h]
    simp only [List.map_cons, List.flatten_cons, ih]
    have h1 : s ≤ min (s + ppc) t := by omega
    have h2 : min (s + ppc) t ≤ t := Nat.min_le_right _ _
    have hr := List.range'_append s (min (s + ppc) t - s) (t - min (s + ppc) t) 1
    simp only [Nat.one_mul] at hr
    rw [show s + (min (s + ppc) t - s) = min (s + ppc) t by omega] at hr
    rw [hr]
    congr 1
    omega
  | case2 num s t h =>
    rw [divideRanges, dif_neg h]
    have hts : t - s = 0 := by omega
    simp [hts]

/-- The loop produces `ceil ((t - s) / ppc)` chunks. -/
theorem divideRanges_length (ppc num s t : Nat) (hppc : 0 < ppc) :
    (divideRanges ppc num s t).length = (t - s + ppc - 1) / ppc := by
  induction num, s, t using divideRanges.induct ppc with
  | case1 num s t h ih =>
    rw [divideRanges, dif_pos h]
    simp only [List.length_cons, ih]
    rcases Nat.le_total (s + ppc) t with hle | hle
    · rw [Nat.min_eq_left hle]
      rw [show t - (s + ppc) + ppc - 1 = t - s - 1 by omega]
      rw [show t - s + ppc - 1 = (t - s - 1) + ppc by omega]
      rw [Nat.add_div_right _ hppc]
    · rw [Nat.min_eq_right hle]
      rw [Nat.sub_self, Nat.zero_add]
      rw [Nat.div_eq_of_lt (by omega)]
      have h3 : (t - s + ppc - 1) / ppc = 1 :=
        Nat.div_eq_of_lt_le (by omega) (by omega)
      omega
  | case2 num s t h =>
    rw [divideRanges, dif_neg h]
    rw [show t - s + ppc - 1 = ppc - 1 by omega]
    rw [Nat.div_eq_of_lt (by omega)]
    rfl

/-- Chunk numbering is contiguous from the starting number. -/
theorem divideRanges_nums (ppc num s t : Nat) :
    (divideRanges ppc num s t).map Prod.fst
      = List.range' num (divideRanges ppc num s t).length := by
  induction num, s, t using divideRanges.induct ppc with
  | case1 num s t h ih =>
    rw [divideRanges, dif_pos h]
    simp only [List.map_cons, List.length_cons, ih, List.range'_succ]
  | case2 num s t h =>
    rw [divideRanges, dif_neg h]
    rfl

/-- Every produced page range is non-empty, spans at most `ppc` pages and
stays below the total page count. -/
theorem divideRanges_mem (ppc num s t : Nat)
    (r : Nat × Nat × Nat) (hr : r ∈ divideRanges ppc num s t) :
    r.2.1 < r.2.2 ∧ r.2.2 - r.2.1 ≤ ppc ∧ r.2.2 ≤ t := by
  induction num, s, t using divideRanges.induct ppc with
  | case1 num s t h ih =>
    rw [divideRanges, dif_pos h] at hr
    rcases List.mem_cons.mp hr with heq | hmem
    · subst heq
      dsimp only
      omega
    · exact ih hmem
  | case2 num s t h =>
    rw [divideRanges, dif_neg h] at hr
    cases hr

/-- Every chunk except possibly the final one spans exactly `ppc`
pages. -/
theorem divideRanges_dropLast_full (ppc num s t : Nat) (hppc : 0 < ppc)
    (r : Nat × Nat × Nat) (hr : r ∈ (divideRanges ppc num s t).dropLast) :
    r.2.2 - r.2.1 = ppc := by
  induction num, s, t using divideRanges.induct ppc with
  | case1 num s t h ih =>
    rw [divideRanges, dif_pos h] at hr
    by_cases hrest : divideRanges ppc (num + 1) (min (s + ppc) t) t = []
    · rw [hrest] at hr
      cases hr
    · rw [List.dropLast_cons_of_ne_nil hrest] at hr
      rcases List.mem_cons.mp hr with heq | hmem
      · subst heq
        have hlt : min (s + ppc) t < t := by
          by_contra hc
          exact hrest ((divideRanges_eq_nil_iff _ _ _ _).mpr (Or.inl (by omega)))
        dsimp only
        omega
      · exact ih hmem
  | case2 num s t h =>
    rw [divideRanges, dif_neg h] at hr
    cases hr

/-- Concatenating the byte windows of `_divide_large_file` in order
reproduces the file's bytes exactly. -/
theorem divide_large_file_flatten (m : Nat) (hm : 0 < m) (d : List Nat) :
    (divide_large_file m d).flatten = d := by
  induction d using divide_large_file.induct m with
  | case1 d h ih =>
    rw [divide_large_file, dif_pos h]
    simp only [List.flatten_cons, ih, List.take_append_drop]
  | case2 d h =>
    rw [divide_large_file, dif_neg h]
    have hd : d = [] := by
      by_contra hc
      exact h ⟨hm, hc⟩
    simp [hd]

/-- Every byte window is non-empty and holds at most `maxBytes` bytes. -/
theorem divide_large_file_mem (m : Nat) (d : List Nat)
    (c : List Nat) (hc : c ∈ divide_large_file m d) :
    c ≠ [] ∧ c.length ≤ m := by
  induction d using divide_large_file.induct m with
  | case1 d h ih =>
    rw [divide_large_file, dif_pos h] at hc
    rcases List.mem_cons.mp hc with heq | hmem
    · subst heq
      constructor
      · simp only [ne_eq, List.take_eq_nil_iff]
        push_neg
        exact ⟨by omega, h.2⟩
      · simp only [List.length_take]
        omega
    · exact ih hmem
  | case2 d h =>
    rw [divide_large_file, dif_neg h] at hc
    cases hc

/-- The byte-window loop yields no chunks exactly when the file is empty
or the window size is zero. -/
theorem divide_large_file_eq_nil_iff (m : Nat) (d : List Nat) :
    divide_large_file m d = [] ↔ m = 0 ∨ d = [] := by
  rw [divide_large_file]
  split
  · rename_i h
    constructor
    · intro hc; cases hc
    · intro hc
      rcases hc with hc | hc
      · omega
      · exact absurd hc h.2
  · rename_i h
    constructor
    · intro _
      by_cases hm : m = 0
      · exact Or.inl hm
      · exact Or.inr (by
          by_contra hc
          exact h ⟨Nat.pos_of_ne_zero hm, hc⟩)
    · intro _; rfl

/-- Every byte window except possibly the final one holds exactly
`maxBytes` bytes. -/
theorem divide_large_file_dropLast_full (m : Nat) (d : List Nat)
    (c : List Nat) (hc : c ∈ (divide_large_file m d).dropLast) :
    c.length = m := by
  induction d using divide_large_file.induct m with
  | case1 d h ih =>
    rw [divide_large_file, dif_pos h] at hc
    by_cases hrest : divide_large_file m (d.drop m) = []
    · rw [hrest] at hc
      cases hc
    · rw [List.dropLast_cons_of_ne_nil hrest] at hc
      rcases List.mem_cons.mp hc with heq | hmem
      · subst heq
        have hdrop : d.drop m ≠ [] := by
          intro hcon
          exact hrest ((divide_large_file_eq_nil_iff _ _).mpr (Or.inr hcon))
        have hlen : m < d.length := by
          by_contra hcon
          exact hdrop (List.drop_eq_nil_of_le (by omega))
        simp only [List.length_take]
        omega
      · exact ih hmem
  | case2 d h =>
    rw [divide_large_file, dif_neg h] at hc
    cases hc

/-- A block of characters free of dots and slashes is taken whole by the
extension scan, which stops at the following dot. -/
theorem takeWhile_dotSlash_append (suf pre : List Char)
    (hsuf : ∀ a ∈ suf, a ≠ '.' ∧ a ≠ '/') :
    (suf ++ '.' :: pre).takeWhile (fun c => c ≠ '.' && c ≠ '/') = suf := by
  induction suf with
  | nil => rw [List.nil_append, List.takeWhile_cons, if_neg (by decide)]
  | cons a rest ihs =>
    have ha := hsuf a (List.mem_cons_self a rest)
    have hpa : (a ≠ '.' && a ≠ '/') = true := by
      simp only [Bool.and_eq_true, ne_eq, decide_eq_true_eq]
      exact ⟨ha.1, ha.2⟩
    rw [List.cons_append, List.takeWhile_cons, if_pos hpa,
      ihs (fun x hx => hsuf x (List.mem_cons_of_mem a hx))]

/-- Characterisation of `splitext`'s extension when the reversed path
decomposes as dot-free suffix, dot, and a remainder providing a non-dot
character before any slash. -/
theorem splitext_snd_of_rev (p suf pre : List Char)
    (h : p.reverse = suf ++ '.' :: pre)
    (hsuf : ∀ a ∈ suf, a ≠ '.' ∧ a ≠ '/')
    (hpre : (pre.takeWhile (· ≠ '/')).any (· ≠ '.') = true) :
    (splitext p).2 = '.' :: suf.reverse := by
  unfold splitext
  rw [h]
  dsimp only
  rw [takeWhile_dotSlash_append suf pre hsuf, List.drop_left]
  dsimp only
  rw [if_pos ⟨rfl, hpre⟩]

/-- Any path ending in `_converted.pdf` has extension `.pdf`. -/
theorem splitext_converted_pdf (q : List Char) :
    (splitext (q ++ "_converted.pdf".toList)).2 = ".pdf".toList := by
  have h := splitext_snd_of_rev (q ++ "_converted.pdf".toList) ['f', 'd', 'p']
    (['d', 'e', 't', 'r', 'e', 'v', 'n', 'o', 'c', '_'] ++ q.reverse)
    (by rw [List.reverse_append]; rfl)
    (by decide)
    (by
      rw [List.cons_append, List.takeWhile_cons, if_pos (by decide), List.any_cons]
      simp)
  rw [h]
  rfl

/-- Joining keeps the trailing part of the second component intact. -/
theorem joinPath_suffix (a b c : List Char) :
    ∃ q, joinPath a (b ++ c) = q ++ c := by
  unfold joinPath
  split_ifs with h1 h2
  · exact ⟨b, rfl⟩
  · exact ⟨a ++ b, by rw [List.append_assoc]⟩
  · exact ⟨a ++ '/' :: b, by simp [List.append_assoc]⟩

/-- Input already in PDF form is returned unchanged (conversion.py
lines 22-25). -/
theorem convert_to_pdf_of_pdf_ext (ok : List Char → Bool) (p : List Char)
    (h : toLower (splitext p).2 = ".pdf".toList) :
    convert_to_pdf ok p = p := by
  unfold convert_to_pdf
  rw [if_pos h]

/-- After conversion the result either carries the `.pdf` extension or is
the untouched input. -/
theorem convert_to_pdf_ext_after (ok : List Char → Bool) (p : List Char) :
    toLower (splitext (convert_to_pdf ok p)).2 = ".pdf".toList
      ∨ convert_to_pdf ok p = p := by
  by_cases h1 : toLower (splitext p).2 = ".pdf".toList
  · exact Or.inr (convert_to_pdf_of_pdf_ext ok p h1)
  · by_cases h2 : ok p = true
    · left
      have hout : convert_to_pdf ok p
          = joinPath (dirname p)
              ((splitext (basename p)).1 ++ "_converted.pdf".toList) := by
        unfold convert_to_pdf
        rw [if_neg h1]
        dsimp only
        rw [if_pos h2]
      obtain ⟨q, hq⟩ := joinPath_suffix (dirname p)
        ((splitext (basename p)).1) ("_converted.pdf".toList)
      rw [hout, hq, splitext_converted_pdf]
      rfl
    · right
      unfold convert_to_pdf
      rw [if_neg h1]
      dsimp only
      rw [if_neg h2]

/-- Normalization is idempotent for any fixed conversion capability. -/
theorem convert_to_pdf_idem (ok : List Char → Bool) (p : List Char) :
    convert_to_pdf ok (convert_to_pdf ok p) = convert_to_pdf ok p := by
  rcases convert_to_pdf_ext_after ok p with h | h
  · exact convert_to_pdf_of_pdf_ext ok _ h
  · rw [h]
    exact h

/-- The per-chunk append loop records, for each chunk in order, its text
when extraction succeeded with non-empty text, the placeholder
otherwise. -/
theorem recordedTexts_eq_map (os : List ChunkOutcome) :
    recordedTexts os
      = os.map (fun o =>
          if o.success = true ∧ o.text ≠ "" then o.text else placeholderText) := by
  have hgen : ∀ (l : List ChunkOutcome) (acc : List String),
      l.foldl (fun acc o =>
          acc ++ [if o.success = true ∧ o.text ≠ "" then o.text
                  else placeholderText]) acc
        = acc ++ l.map (fun o =>
            if o.success = true ∧ o.text ≠ "" then o.text
            else placeholderText) := by
    intro l
    induction l with
    | nil => intro acc; simp
    | cons a rest ih =>
      intro acc
      simp only [List.foldl_cons, List.map_cons, ih, List.append_assoc,
        List.cons_append, List.nil_append]
  unfold recordedTexts
  rw [hgen]
  rfl

/-- The batch loop never touches the batch `success` flag; only the final
adjustment after the loop does. -/
theorem batch_foldl_success (now : Nat) (env : List Char → FileEnv)
    (so : Bool) (l : List (Nat × List Char)) (acc : BatchResult) :
    (l.foldl (batchStep now env so) acc).success = acc.success := by
  induction l generalizing acc with
  | nil => rfl
  | cons a rest ih =>
    rw [List.foldl_cons, ih]
    rfl

/-- Shape of the result when the file exists and no exception escapes the
pipeline body: success, merged text, and the metadata block. -/
theorem process_single_file_ok (now : Nat) (env : FileEnv) (fp : List Char)
    (so : Bool) (h1 : env.fileExists = true) (h2 : env.pipelineError = none) :
    process_single_file now env fp so
      = ({ success := true, filePath := fp,
           extracted_text := mergeTexts env.outcomes,
           text_length := (mergeTexts env.outcomes).length,
           metadata := some
             { chunks_processed := env.outcomes.length,
               extraction_methods := env.outcomes.map (·.extractionMethod),
               total_file_size := (env.outcomes.map (·.byteSize)).sum },
           error := none }, none) := by
  unfold process_single_file
  rw [h1, h2]
  simp

/-- When writing chunk `k` fails (with `k` among the chunks the loop
reaches), the loop returns the original-file fallback while chunk files
`num..k` stay on disk — the earlier chunks complete, plus the partially
written failing one. -/
theorem dividePdfWrites_fail (ppc k : Nat) (num s t : Nat) (w : List Nat)
    (hnum : num ≤ k) (hlen : k - num < (divideRanges ppc num s t).length) :
    dividePdfWrites (some k) ppc num s t w
      = (.fallbackOriginal, w ++ List.range' num (k - num + 1)) := by
  induction num, s, t, w using dividePdfWrites.induct (some k) ppc with
  | case1 num s t w h heq =>
    have hk : k = num := Option.some.inj heq
    subst hk
    rw [dividePdfWrites, dif_pos h, if_pos heq]
    rw [Nat.sub_self]
    simp [List.range'_one]
  | case2 num s t w h hne ih =>
    have hk : num < k := by
      rcases Nat.lt_or_ge num k with hlt | hge
      · exact hlt
      · have : num = k := by omega
        exact absurd (by rw [this]) hne
    rw [dividePdfWrites, dif_pos h, if_neg hne]
    have hlen2 : k - (num + 1)
        < (divideRanges ppc (num + 1) (min (s + ppc) t) t).length := by
      have hexp : (divideRanges ppc num s t).length
          = (divideRanges ppc (num + 1) (min (s + ppc) t) t).length + 1 := by
        rw [divideRanges, dif_pos h]
        rfl
      omega
    rw [ih (by omega) hlen2]
    rw [List.append_assoc]
    congr 1
    rw [show k - num + 1 = (k - (num + 1) + 1) + 1 by omega]
    rw [List.range'_succ]
    rfl
  | case3 num s t w h =>
    rw [divideRanges, dif_neg h] at hlen
    simp at hlen

/-- When the collision loop returns a name, that name is not among the
existing output files. -/
theorem chooseOutputName_not_mem (fs : List (List Char)) (orig : List Char)
    (fuel : Nat) (cur : List Char) (ctr : Nat) (name : List Char)
    (h : chooseOutputName fs orig fuel cur ctr = some name) : name ∉ fs := by
  induction fuel generalizing cur ctr with
  | zero =>
    rw [chooseOutputName] at h
    cases h
  | succ fuel ih =>
    rw [chooseOutputName] at h
    by_cases hmem : cur ∈ fs
    · rw [if_pos hmem] at h
      exact ih _ _ h
    · rw [if_neg hmem] at h
      injection h with h1
      subst h1
      exact hmem

/-- Claim C1: for every file whose byte size is at most `maxBytes` and
which is either non-paged (non-PDF extension, or unreadable as a PDF) or
has at most `maxPages` pages, `check_and_divide_file` returns exactly one
chunk that is the input path itself, unchanged. -/
theorem claim_C1_identity_plan (cfg : Config) (f : FileInfo)
    (hsize : fileSize f ≤ cfg.maxFileSizeBytes)
    (hpage : toLower (splitext f.path).2 ≠ ".pdf".toList ∨ f.pdfPages = none
      ∨ ∃ n, f.pdfPages = some n ∧ n ≤ cfg.maxPdfPages) :
    check_and_divide_file cfg f = [ChunkRef.original f.path] := by
  unfold check_and_divide_file
  by_cases hext : toLower (splitext f.path).2 = ".pdf".toList
  · rw [if_pos hext]
    unfold check_and_divide_pdf
    rcases hpage with hp | hp | ⟨n, hn, hle⟩
    · exact absurd hext hp
    · rw [hp]
      dsimp only
      rw [if_pos hsize]
    · rw [hn]
      dsimp only
      rw [if_pos ⟨hsize, hle⟩]
  · rw [if_neg hext, if_pos hsize]

/-- Witness for claim C1: a 2-byte non-PDF file under a 10-byte limit is
returned as a single original-path chunk. -/
theorem claim_C1_witness :
    fileSize ⟨"a.txt".toList, [1, 2], none⟩ ≤ (⟨10, 5⟩ : Config).maxFileSizeBytes
      ∧ check_and_divide_file ⟨10, 5⟩ ⟨"a.txt".toList, [1, 2], none⟩
          = [ChunkRef.original "a.txt".toList] :=
  ⟨by decide,
   claim_C1_identity_plan ⟨10, 5⟩ ⟨"a.txt".toList, [1, 2], none⟩ (by decide)
     (Or.inr (Or.inl rfl))⟩

/-- Claim C2: for every PDF with `pages > maxPages`, division returns
`ceil (pages / maxPages)` chunks whose page ranges partition `[0, pages)`
contiguously and in order, each chunk holding `maxPages` pages except
possibly a shorter (non-empty) final chunk, with chunk numbering
contiguous from 1. -/
theorem claim_C2_page_division (cfg : Config) (f : FileInfo) (n : Nat)
    (rs : List (Nat × Nat × Nat))
    (hext : toLower (splitext f.path).2 = ".pdf".toList)
    (hpages : f.pdfPages = some n)
    (hgt : cfg.maxPdfPages < n)
    (hppc : 0 < cfg.maxPdfPages)
    (hrs : rs = divideRanges cfg.maxPdfPages 1 0 n) :
    check_and_divide_file cfg f
        = rs.map (fun r => ChunkRef.pdfChunk r.1 r.2.1 r.2.2)
      ∧ rs.length = (n + cfg.maxPdfPages - 1) / cfg.maxPdfPages
      ∧ ((rs.map (fun r => List.range' r.2.1 (r.2.2 - r.2.1))).flatten
          = List.range' 0 n)
      ∧ rs.map Prod.fst = List.range' 1 rs.length
      ∧ (∀ r ∈ rs.dropLast, r.2.2 - r.2.1 = cfg.maxPdfPages)
      ∧ (∀ r ∈ rs, 0 < r.2.2 - r.2.1 ∧ r.2.2 - r.2.1 ≤ cfg.maxPdfPages) := by
  subst hrs
  refine ⟨?_, ?_, ?_, ?_, ?_, ?_⟩
  · unfold check_and_divide_file
    rw [if_pos hext]
    unfold check_and_divide_pdf
    rw [hpages]
    dsimp only
    rw [if_neg (by omega), if_pos hgt]
  · rw [divideRanges_length _ _ _ _ hppc, Nat.sub_zero]
  · rw [divideRanges_flatten _ _ _ _ hppc, Nat.sub_zero]
  · exact divideRanges_nums _ _ _ _
  · exact fun r hr => divideRanges_dropLast_full _ _ _ _ hppc r hr
  · exact fun r hr => by
      have := divideRanges_mem _ _ _ _ r hr
      exact ⟨by omega, this.2.1⟩

/-- Witness for claim C2: a 40-page PDF with `maxPages = 15` is divided
into the computed page-range chunks. -/
theorem claim_C2_witness :
    toLower (splitext "a.pdf".toList).2 = ".pdf".toList
      ∧ (⟨1000, 15⟩ : Config).maxPdfPages < 40
      ∧ check_and_divide_file ⟨1000, 15⟩ ⟨"a.pdf".toList, [1], some 40⟩
          = (divideRanges 15 1 0 40).map
              (fun r => ChunkRef.pdfChunk r.1 r.2.1 r.2.2) :=
  ⟨by decide, by decide,
   (claim_C2_page_division ⟨1000, 15⟩ ⟨"a.pdf".toList, [1], some 40⟩ 40
     (divideRanges 15 1 0 40) (by decide) rfl (by decide) (by decide) rfl).1⟩

/-- Claim C3: if exactly one of N>1 chunks fails extraction (the others
succeeding with non-empty text), the file-level result still has
`success = true`, the merged text is the N-1 extracted texts with exactly
one placeholder in chunk order, and `metadata.chunks_processed = N`. -/
theorem claim_C3_single_failure_isolated (now : Nat) (fp : List Char) (so : Bool)
    (pre post : List ChunkOutcome) (bad : ChunkOutcome) (r : FileResult)
    (hbad : bad.success = false)
    (hgood : ∀ o ∈ pre ++ post, o.success = true ∧ o.text ≠ "")
    (hN : 1 < (pre ++ bad :: post).length)
    (hr : r = (process_single_file now ⟨true, none, pre ++ bad :: post⟩ fp so).1) :
    r.success = true
      ∧ r.extracted_text = String.intercalate chunkSeparator
          (pre.map (·.text) ++ placeholderText :: post.map (·.text))
      ∧ r.metadata.map (·.chunks_processed) = some (pre ++ bad :: post).length := by
  subst hr
  rw [process_single_file_ok now _ fp so rfl rfl]
  refine ⟨rfl, ?_, rfl⟩
  show mergeTexts (pre ++ bad :: post) = _
  unfold mergeTexts
  rw [if_pos hN]
  rw [recordedTexts_eq_map, List.map_append, List.map_cons]
  have hpre : pre.map (fun o =>
        if o.success = true ∧ o.text ≠ "" then o.text else placeholderText)
      = pre.map (·.text) :=
    List.map_congr_left (fun o ho => if_pos (hgood o (List.mem_append_left _ ho)))
  have hpost : post.map (fun o =>
        if o.success = true ∧ o.text ≠ "" then o.text else placeholderText)
      = post.map (·.text) :=
    List.map_congr_left (fun o ho => if_pos (hgood o (List.mem_append_right _ ho)))
  have hbad2 : (if bad.success = true ∧ bad.text ≠ "" then bad.text
      else placeholderText) = placeholderText := by
    rw [if_neg]
    intro hc
    rw [hbad] at hc
    exact Bool.false_ne_true hc.1
  rw [hpre, hpost, hbad2]

/-- Witness for claim C3: three chunks where only the middle one fails
yield a successful result merging "A", the placeholder, and "B". -/
theorem claim_C3_witness :
    (process_single_file 0
        ⟨true, none, [⟨true, "A", some "m", 1⟩, ⟨false, "", none, 0⟩,
          ⟨true, "B", some "m", 2⟩]⟩ "f.pdf".toList true).1.success = true
      ∧ (process_single_file 0
          ⟨true, none, [⟨true, "A", some "m", 1⟩, ⟨false, "", none, 0⟩,
            ⟨true, "B", some "m", 2⟩]⟩ "f.pdf".toList true).1.extracted_text
        = String.intercalate chunkSeparator
            ([(⟨true, "A", some "m", 1⟩ : ChunkOutcome)].map (·.text)
              ++ placeholderText
                :: [(⟨true, "B", some "m", 2⟩ : ChunkOutcome)].map (·.text))
      ∧ ((process_single_file 0
          ⟨true, none, [⟨true, "A", some "m", 1⟩, ⟨false, "", none, 0⟩,
            ⟨true, "B", some "m", 2⟩]⟩ "f.pdf".toList true).1.metadata.map
              (·.chunks_processed))
        = some ([(⟨true, "A", some "m", 1⟩ : ChunkOutcome)]
            ++ (⟨false, "", none, 0⟩ : ChunkOutcome)
              :: [(⟨true, "B", some "m", 2⟩ : ChunkOutcome)]).length :=
  claim_C3_single_failure_isolated 0 "f.pdf".toList true
    [⟨true, "A", some "m", 1⟩] [⟨true, "B", some "m", 2⟩] ⟨false, "", none, 0⟩
    _ rfl (by decide) (by decide) rfl

/-- Claim C10: a chunk whose outcome reports `success = true` but whose
text is empty is recorded as the placeholder string in the merged text —
the placeholder substitution triggers on empty text just as on
failure. -/
theorem claim_C10_empty_success_placeholder (now : Nat) (fp : List Char)
    (so : Bool) (pre post : List ChunkOutcome) (o : ChunkOutcome) (r : FileResult)
    (hs : o.success = true) (ht : o.text = "")
    (hr : r = (process_single_file now ⟨true, none, pre ++ o :: post⟩ fp so).1) :
    r.extracted_text = mergeTexts (pre ++ o :: post)
      ∧ recordedTexts (pre ++ o :: post)
          = recordedTexts pre ++ placeholderText :: recordedTexts post
      ∧ (1 < (pre ++ o :: post).length →
          r.extracted_text = String.intercalate chunkSeparator
            (recordedTexts pre ++ placeholderText :: recordedTexts post)) := by
  subst hr
  rw [process_single_file_ok now _ fp so rfl rfl]
  have hdecomp : recordedTexts (pre ++ o :: post)
      = recordedTexts pre ++ placeholderText :: recordedTexts post := by
    rw [recordedTexts_eq_map, recordedTexts_eq_map, recordedTexts_eq_map,
      List.map_append, List.map_cons]
    have ho : (if o.success = true ∧ o.text ≠ "" then o.text
        else placeholderText) = placeholderText := by
      rw [if_neg]
      intro hc
      exact hc.2 ht
    rw [ho]
  refine ⟨rfl, hdecomp, ?_⟩
  intro hN
  show mergeTexts (pre ++ o :: post) = _
  unfold mergeTexts
  rw [if_pos hN, hdecomp]

/-- Witness for claim C10: a successful-but-empty second chunk is
recorded as the placeholder. -/
theorem claim_C10_witness :
    (⟨true, "", some "none", 3⟩ : ChunkOutcome).success = true
      ∧ recordedTexts ([⟨true, "A", some "m", 1⟩]
            ++ (⟨true, "", some "none", 3⟩ : ChunkOutcome) :: [])
          = recordedTexts [⟨true, "A", some "m", 1⟩]
              ++ placeholderText :: recordedTexts [] :=
  ⟨rfl,
   (claim_C10_empty_success_placeholder 0 "f.pdf".toList true
     [⟨true, "A", some "m", 1⟩] [] ⟨true, "", some "none", 3⟩ _ rfl rfl rfl).2.1⟩

/-- Claim C4: the batch success flag is true iff at least one file
succeeded or no file failed; in particular a 3-file batch with one
missing file yields `successful_files = 2`, `failed_files = 1` and
`success = true`. -/
theorem claim_C4_batch_partial_success (now : Nat) (env : List Char → FileEnv)
    (paths : List (List Char)) (so : Bool) :
    ((process_multiple_files now env paths so).success = true
      ↔ 0 < (process_multiple_files now env paths so).successful_files
        ∨ (process_multiple_files now env paths so).failed_files = 0)
      ∧ (process_multiple_files 0
          (fun p => if p = "b.pdf".toList then ⟨false, none, []⟩
            else ⟨true, none, [⟨true, "hello", some "direct_read", 5⟩]⟩)
          ["a.pdf".toList, "b.pdf".toList, "c.pdf".toList] true).successful_files = 2
      ∧ (process_multiple_files 0
          (fun p => if p = "b.pdf".toList then ⟨false, none, []⟩
            else ⟨true, none, [⟨true, "hello", some "direct_read", 5⟩]⟩)
          ["a.pdf".toList, "b.pdf".toList, "c.pdf".toList] true).failed_files = 1
      ∧ (process_multiple_files 0
          (fun p => if p = "b.pdf".toList then ⟨false, none, []⟩
            else ⟨true, none, [⟨true, "hello", some "direct_read", 5⟩]⟩)
          ["a.pdf".toList, "b.pdf".toList, "c.pdf".toList] true).success = true := by
  refine ⟨?_, by decide, by decide, by decide⟩
  unfold process_multiple_files
  dsimp only
  by_cases h : 0 < (paths.enum.foldl (batchStep now env so)
      { success := true, total_files := paths.length, successful_files := 0,
        failed_files := 0, combined_text := "",
        individual_results := [] }).failed_files
  · rw [if_pos h]
    simp only [decide_eq_true_eq]
    constructor
    · exact Or.inl
    · intro hor
      rcases hor with h1 | h1
      · exact h1
      · omega
  · rw [if_neg h]
    have hs := batch_foldl_success now env so paths.enum
      { success := true, total_files := paths.length, successful_files := 0,
        failed_files := 0, combined_text := "", individual_results := [] }
    constructor
    · intro _
      exact Or.inr (by omega)
    · intro _
      exact hs

/-- Claim C5: for a non-paged oversized file, byte-window division splits
the content into windows of `maxBytes` bytes each (last possibly
shorter, all non-empty), and concatenating all windows in chunk order
reproduces the original bytes exactly. -/
theorem claim_C5_byte_windows (cfg : Config) (f : FileInfo)
    (hm : 0 < cfg.maxFileSizeBytes)
    (hext : toLower (splitext f.path).2 ≠ ".pdf".toList)
    (hbig : cfg.maxFileSizeBytes < fileSize f) :
    check_and_divide_file cfg f = byteChunkRefs cfg.maxFileSizeBytes f.content
      ∧ (divide_large_file cfg.maxFileSizeBytes f.content).flatten = f.content
      ∧ (∀ c ∈ (divide_large_file cfg.maxFileSizeBytes f.content).dropLast,
          c.length = cfg.maxFileSizeBytes)
      ∧ (∀ c ∈ divide_large_file cfg.maxFileSizeBytes f.content,
          c ≠ [] ∧ c.length ≤ cfg.maxFileSizeBytes) := by
  refine ⟨?_, divide_large_file_flatten _ hm _,
    fun c hc => divide_large_file_dropLast_full _ _ c hc,
    fun c hc => divide_large_file_mem _ _ c hc⟩
  unfold check_and_divide_file
  rw [if_neg hext, if_neg (by omega)]

/-- Witness for claim C5: a 3-byte file with a 2-byte limit splits into
windows whose concatenation is the original content. -/
theorem claim_C5_witness :
    0 < (⟨2, 5⟩ : Config).maxFileSizeBytes
      ∧ (⟨2, 5⟩ : Config).maxFileSizeBytes < fileSize ⟨"a.bin".toList, [7, 8, 9], none⟩
      ∧ (divide_large_file 2 [7, 8, 9]).flatten = [7, 8, 9] :=
  ⟨by decide, by decide,
   (claim_C5_byte_windows ⟨2, 5⟩ ⟨"a.bin".toList, [7, 8, 9], none⟩ (by decide)
     (by decide) (by decide)).2.1⟩

/-- Counterexample to claim C6: when writing chunk 2 of a 30-page PDF
(15 pages per chunk) fails, the divider does return the original-file
fallback, but chunk files remain on disk — the filesystem is not
unchanged as the claim asserts. -/
theorem claim_C6_counterexample :
    (dividePdfWrites (some 2) 15 1 0 30 []).1 = DivideOutcome.fallbackOriginal
      ∧ (dividePdfWrites (some 2) 15 1 0 30 []).2 ≠ [] := by
  constructor
  · simp [dividePdfWrites]
  · simp [dividePdfWrites]

/-- Claim C6 (amended): if writing chunk `k` fails, the division returns
the identity (original-file) fallback, but the chunk files written up to
and including the partially written failing chunk — chunks `1..k` — are
left on disk. -/
theorem claim_C6_fallback_keeps_written (ppc k total : Nat)
    (hppc : 0 < ppc) (hk : 1 ≤ k)
    (hkle : k ≤ (divideRanges ppc 1 0 total).length) :
    dividePdfWrites (some k) ppc 1 0 total []
        = (.fallbackOriginal, List.range' 1 k)
      ∧ List.range' 1 k ≠ [] := by
  constructor
  · have h := dividePdfWrites_fail ppc k 1 0 total [] hk (by omega)
    rw [h, List.nil_append, show k - 1 + 1 = k by omega]
  · intro hc
    have := congrArg List.length hc
    rw [List.length_range'] at this
    simp at this
    omega

/-- Witness for the amended claim C6: failing on chunk 2 of a 30-page PDF
leaves chunks 1 and 2 on disk while returning the fallback. -/
theorem claim_C6_fallback_witness :
    0 < 15 ∧ 1 ≤ 2 ∧ 2 ≤ (divideRanges 15 1 0 30).length
      ∧ dividePdfWrites (some 2) 15 1 0 30 []
          = (DivideOutcome.fallbackOriginal, List.range' 1 2) :=
  ⟨by decide, by decide, by simp [divideRanges],
   (claim_C6_fallback_keeps_written 15 2 30 (by decide) (by decide)
     (by simp [divideRanges])).1⟩

/-- Claim C7: normalization is idempotent —
`normalize (normalize x) = normalize x` for any path and any fixed
conversion capability — and input already in PDF form is returned
unchanged. -/
theorem claim_C7_normalize_idempotent (ok : List Char → Bool) (p : List Char) :
    convert_to_pdf ok (convert_to_pdf ok p) = convert_to_pdf ok p
      ∧ (toLower (splitext p).2 = ".pdf".toList → convert_to_pdf ok p = p) :=
  ⟨convert_to_pdf_idem ok p, convert_to_pdf_of_pdf_ext ok p⟩

/-- Witness for claim C7: a `.pdf` path is a fixed point of
normalization. -/
theorem claim_C7_witness :
    toLower (splitext "a.pdf".toList).2 = ".pdf".toList
      ∧ convert_to_pdf (fun _ => true) "a.pdf".toList = "a.pdf".toList :=
  ⟨by decide,
   (claim_C7_normalize_idempotent (fun _ => true) "a.pdf".toList).2 (by decide)⟩

/-- Counterexample to claim C8: for a missing input file with
output-saving requested, the early return produces the structured error
result but writes no error artifact at all — the claimed artifact
persistence does not happen on this path. -/
theorem claim_C8_counterexample :
    (process_single_file 0 ⟨false, none, []⟩ "up/x.pdf".toList true).1.success = false
      ∧ (process_single_file 0 ⟨false, none, []⟩ "up/x.pdf".toList true).1.error
          = some "File does not exist"
      ∧ (process_single_file 0 ⟨false, none, []⟩ "up/x.pdf".toList true).2 = none :=
  ⟨by decide, by decide, by decide⟩

/-- Claim C8 (amended): a missing input file terminates processing
immediately with the structured error result and writes no error
artifact regardless of the save flag; the error artifact (source path,
error text, timestamp) is persisted only when a failure occurs inside
the processing pipeline after the existence check. -/
theorem claim_C8_missing_file (now : Nat) (env : FileEnv) (fp : List Char) :
    (env.fileExists = false → ∀ so : Bool,
        (process_single_file now env fp so).1
            = create_error_result fp "File does not exist"
          ∧ (process_single_file now env fp so).2 = none)
      ∧ (∀ e, env.fileExists = true → env.pipelineError = some e →
          (process_single_file now env fp true).2 = some ⟨fp, e, now⟩
            ∧ (process_single_file now env fp true).1.success = false) := by
  constructor
  · intro h so
    unfold process_single_file
    rw [h]
    exact ⟨rfl, rfl⟩
  · intro e h1 h2
    unfold process_single_file
    rw [h1, h2]
    exact ⟨rfl, rfl⟩

/-- Witness for the amended claim C8: a missing file yields the error
result and no artifact, while an in-pipeline failure does persist the
artifact. -/
theorem claim_C8_witness :
    ((process_single_file 0 ⟨false, none, []⟩ "y.pdf".toList true).1
        = create_error_result "y.pdf".toList "File does not exist"
      ∧ (process_single_file 0 ⟨false, none, []⟩ "y.pdf".toList true).2 = none)
    ∧ ((process_single_file 7 ⟨true, some "boom", []⟩ "z.pdf".toList true).2
        = some ⟨"z.pdf".toList, "boom", 7⟩
      ∧ (process_single_file 7 ⟨true, some "boom", []⟩ "z.pdf".toList true).1.success
          = false) :=
  ⟨(claim_C8_missing_file 0 ⟨false, none, []⟩ "y.pdf".toList).1 rfl true,
   (claim_C8_missing_file 7 ⟨true, some "boom", []⟩ "z.pdf".toList).2 "boom" rfl rfl⟩

/-- Claim C9: the output file is named `<stem>_extracted.txt`; on
collision a numeric suffix is appended, so two outputs for identical
stems get distinct names (`name_extracted.txt`, then
`name_extracted_1.txt`), and the chosen path never exists at the time of
writing. -/
theorem claim_C9_output_collision :
    (∀ fs orig fuel cur ctr name,
        chooseOutputName fs orig fuel cur ctr = some name → name ∉ fs)
      ∧ save_extracted_text_name [] "outputs".toList "up/name.pdf".toList 5
          = some "outputs/name_extracted.txt".toList
      ∧ save_extracted_text_name ["outputs/name_extracted.txt".toList]
          "outputs".toList "up/name.pdf".toList 5
          = some "outputs/name_extracted_1.txt".toList :=
  ⟨chooseOutputName_not_mem, by decide, by decide⟩

/-- Witness for claim C9: with `name_extracted.txt` already present, the
loop settles on `name_extracted_1.txt`, which is not among the existing
files. -/
theorem claim_C9_witness :
    chooseOutputName ["outputs/name_extracted.txt".toList]
        "outputs/name_extracted.txt".toList 5
        "outputs/name_extracted.txt".toList 1
      = some "outputs/name_extracted_1.txt".toList
    ∧ "outputs/name_extracted_1.txt".toList ∉ ["outputs/name_extracted.txt".toList] :=
  ⟨by decide,
   claim_C9_output_collision.1 ["outputs/name_extracted.txt".toList]
     "outputs/name_extracted.txt".toList 5
     "outputs/name_extracted.txt".toList 1
     "outputs/name_extracted_1.txt".toList (by decide)⟩

end DocPipeline
